import Mathlib

/-!
# taskco — verification of the job-queue core

Shallow embedding of the `taskco` distributed priority job queue:

* `Redis` — model of the Redis sorted-set primitives used by the transport
  layer (`zadd`, `zrange 0 0` + `zremrangebyrank 0 0`), with Redis's actual
  ordering: ascending score, ties broken lexicographically by member.
* `TransportRedis` — the transport wrappers `sortedAdd` / `sortedPop`
  (`sortedAdd` negates the score before `zadd`).
* `Task` — the task data model (metadata, constructor, priority
  normalisation, progress, success, failure, finalize, queue).
* `Store` / `Task.save` — the persistence state machine used by `save()`.
* `Dispatcher.routeMessage` — the defensive pub/sub message router.
-/

namespace Redis

/-- Lexicographic comparison of character lists, the order Redis uses to
rank sorted-set members that share a score (member strings are compared
byte-wise; for the ids involved here, `Char` order coincides). -/
def charListLtb : List Char → List Char → Bool
  | [], [] => false
  | [], _ :: _ => true
  | _ :: _, [] => false
  | a :: as, b :: bs => if a < b then true else if b < a then false else charListLtb as bs

/-- A sorted-set entry: `(member, score)`.  Members are the task ids, stored
by Redis as strings; scores are the (already negated) priorities. -/
abbrev Entry := String × Int

/-- The members of a sorted set (the task ids it currently holds). -/
def members (z : List Entry) : List String := z.map Prod.fst

/-- Redis `ZADD key score member`: if the member is present its score is
updated in place, otherwise the entry is appended. -/
def zadd : List Entry → String → Int → List Entry
  | [], m, s => [(m, s)]
  | e :: rest, m, s => if e.1 = m then (m, s) :: rest else e :: zadd rest m s

/-- The strict order in which Redis ranks sorted-set entries: ascending
score, ties broken by lexicographic order on the member string. -/
def entryLt (a b : Entry) : Prop :=
  a.2 < b.2 ∨ (a.2 = b.2 ∧ charListLtb a.1.data b.1.data = true)

instance (a b : Entry) : Decidable (entryLt a b) := by
  unfold entryLt; infer_instance

/-- The entry of rank 0 (what `zrange key 0 0` returns): the minimum entry
in the `entryLt` order, or `none` on an empty set. -/
def zmin : List Entry → Option Entry
  | [] => none
  | e :: rest =>
    match zmin rest with
    | none => some e
    | some m => if entryLt m e then some m else some e

/-- `TransportRedis.sortedPop`: `zrange key 0 0` followed by
`zremrangebyrank key 0 0` — returns the rank-0 member and removes it. -/
def sortedPop (z : List Entry) : Option String × List Entry :=
  match zmin z with
  | none => (none, z)
  | some e => (some e.1, z.erase e)

/-- Fuel-indexed repeated `sortedPop`: the sequence of members obtained by
popping the set until it is empty.  `fuel ≥ z.length` suffices. -/
def popAllFuel : Nat → List Entry → List String
  | 0, _ => []
  | n + 1, z =>
    match zmin z with
    | none => []
    | some e => e.1 :: popAllFuel n (z.erase e)

/-- The order in which `sortedPop` delivers the members of a sorted set. -/
def popAll (z : List Entry) : List String := popAllFuel z.length z

/-- The id `a` is popped (hence handed to an idle worker) strictly before
the id `b` when draining the sorted set `z`. -/
def deliveredBefore (z : List Entry) (a b : String) : Prop :=
  a ∈ popAll z ∧ b ∈ popAll z ∧ (popAll z).indexOf a < (popAll z).indexOf b

instance (z : List Entry) (a b : String) : Decidable (deliveredBefore z a b) := by
  unfold deliveredBefore; infer_instance

end Redis

namespace TransportRedis

open Redis

/-- `TransportRedis.sortedAdd(key, [priority, id])`: the score is negated
("We reverse priority order due to FIFO/LIFO problems with Redis") and the
pair is handed to `zadd`. -/
def sortedAdd (z : List Entry) (priority : Int) (member : String) : List Entry :=
  zadd z member (-priority)

end TransportRedis

namespace Taskco

/-- The mutable task metadata object assembled by the `Task` constructor.
`progress` is `Option ℚ` because `finalize("failure", null, …)` stores the
JS `null` (`none`) in it; `error` is set only on terminal failure. -/
structure Metadata where
  created : Nat
  state : String
  progress : Option ℚ
  broadcasts : List String
  attempts : Nat
  maxAttempts : Nat
  priority : Int
  broadcastAll : Bool
  removeAfter : Option Nat
  error : Option String
deriving DecidableEq, Repr

/-- A value accepted by the `priority` overloaded getter/setter: either a
named level (a string, for which `isNaN` is true) or a raw number. -/
inductive PriorityArg where
  | name (s : String)
  | num (n : Int)
deriving DecidableEq, Repr

/-- The caller-supplied `options` object, restricted to the metadata keys
the spec and claims involve; the constructor copies every present key into
`metadata` (`for (var key in options) this.metadata[key] = options[key]`). -/
structure Options where
  priority : Option PriorityArg := none
  broadcasts : Option (List String) := none
  maxAttempts : Option Nat := none
  removeAfter : Option Nat := none
  broadcastAll : Option Bool := none
deriving DecidableEq, Repr

/-- A procedure's `defaults` object (`factory.procedures[type].defaults`),
copied into `metadata` only for keys still undefined after the options
copy. -/
structure Defaults where
  priority : Option Int := none
  broadcasts : Option (List String) := none
  maxAttempts : Option Nat := none
  removeAfter : Option Nat := none
  broadcastAll : Option Bool := none
deriving DecidableEq, Repr

/-- `privates.priorities`: the named priority levels. -/
def priorities : List (String × Int) :=
  [("low", -10), ("medium", 0), ("high", 10), ("critical", 20)]

/-- The setter path of `Task.prototype.priority`: a raw number is kept via
`Number(...)`; a name is looked up in `privates.priorities`; an unknown
name, or no argument, falls back to the type's default priority or to
`medium` (0). -/
def normalizePriority (defaultPriority : Option Int) (p : Option PriorityArg) : Int :=
  let normal := defaultPriority.getD 0
  match p with
  | none => normal
  | some (.num n) => n
  | some (.name s) =>
    match priorities.lookup s with
    | some v => v
    | none => normal

/-- The in-memory task object: identity fields plus metadata.  `uid` is
copied from `data.uid` by the constructor when present; `prefixStr` is the
factory's key prefix. -/
structure Task where
  id : String
  key : String
  type : String
  uid : Option String := none
  prefixStr : String := ""
  metadata : Metadata
deriving DecidableEq, Repr

/-- `<prefix>tasks:<type>` — the notify list key. -/
def typeKeyOf (t : Task) : String := t.prefixStr ++ "tasks:" ++ t.type

/-- `<prefix>tasks:<type>:waiting` — the priority-structure key. -/
def waitKeyOf (t : Task) : String := typeKeyOf t ++ ":waiting"

/-- `<prefix><type>:uids` — the uid→id dedup hash key. -/
def uidKeyOf (t : Task) : String := t.prefixStr ++ t.type ++ ":uids"

/-- The fresh-construction branch of the `Task` constructor: base metadata
(`created`, `state="waiting"`, `progress=0`, `broadcasts=['remove']`,
`attempts=0`), then the options copy (which overwrites any base field,
including `broadcasts`), then `this.priority(options.priority)`, then the
defaults copy (only for keys still undefined — `broadcasts` is always
defined by that point, so a default for it can never apply), and finally
`maxAttempts = maxAttempts || 1` (`0` is falsy in JS). -/
def Task.create (pre : String) (procDefaults : Defaults) (id ty : String)
    (dataUid : Option String) (opts : Options) (now : Nat) : Task :=
  let broadcasts := opts.broadcasts.getD ["remove"]
  let maxAttempts0 : Option Nat := opts.maxAttempts <|> procDefaults.maxAttempts
  let maxAttempts := match maxAttempts0 with
    | some m => if m = 0 then 1 else m
    | none => 1
  { id := id
    key := pre ++ "tasks:" ++ id
    type := ty
    uid := dataUid
    prefixStr := pre
    metadata :=
      { created := now
        state := "waiting"
        progress := some 0
        broadcasts := broadcasts
        attempts := 0
        maxAttempts := maxAttempts
        priority := normalizePriority procDefaults.priority opts.priority
        broadcastAll := (opts.broadcastAll <|> procDefaults.broadcastAll).getD false
        removeAfter := opts.removeAfter <|> procDefaults.removeAfter
        error := none } }

/-- `Task.prototype.broadcasts(event)`: whether the event is in the
metadata `broadcasts` list. -/
def Task.broadcasts (t : Task) (event : String) : Bool :=
  t.metadata.broadcasts.contains event

/-- Whether `Task.prototype.announce(event)` takes the cross-process
`broadcast` path (`metadata.broadcastAll` set, or event listed in
`metadata.broadcasts`) rather than firing local listeners only. -/
def Task.announceIsBroadcast (t : Task) (event : String) : Bool :=
  t.metadata.broadcastAll || t.broadcasts event

/-- A store-interface call issued by a task operation, in the order the
code issues them.  `sortedAdd` carries the call-level (un-negated)
priority, exactly as `c.sortedAdd(waitKey, [priority, id])` passes it; the
transport negates it (see `TransportRedis.sortedAdd`). -/
inductive StoreOp where
  | hashMultiSet (key : String)
  | hashSet (key field : String)
  | hashUnset (key : String)
  | sortedAdd (key : String) (priority : Int) (member : String)
  | push (key value : String)
  | expire (key : String) (seconds : Nat)
  | remove (key : String)
deriving DecidableEq, Repr

/-- The outcome of a task status operation: the `announce` events it fires
(in order), the in-memory task afterwards, and the store calls it issues. -/
structure StepResult where
  events : List String
  task : Task
  ops : List StoreOp
deriving DecidableEq, Repr

/-- `Task.prototype.finalize(state, progress, err)`: mutates `metadata`
(`progress` and `state` unconditionally, `error` only when `err` is
truthy), then `hashSet key metadata`, `hashUnset uidKey [uid]`, and — when
`removeAfter` is set — `expire key removeAfter` (the deferred local
`remove` announcement it also schedules is outside this step). -/
def Task.finalize (t : Task) (state : String) (progress : Option ℚ)
    (err : Option String) : Task × List StoreOp :=
  let md := { t.metadata with
    state := state
    progress := progress
    error := match err with | some e => some e | none => t.metadata.error }
  let expireOps := match t.metadata.removeAfter with
    | some sec => [StoreOp.expire t.key sec]
    | none => []
  ({ t with metadata := md },
    [StoreOp.hashSet t.key "metadata", StoreOp.hashUnset (uidKeyOf t)] ++ expireOps)

/-- `Task.prototype.success()`: announces `success`, then `deactivate` (a
stub that resolves immediately) and `finalize("success", 100, null)`. -/
def Task.success (t : Task) : StepResult :=
  let fin := t.finalize "success" (some 100) none
  { events := ["success"], task := fin.1, ops := fin.2 }

/-- The setter path of `Task.prototype.progress(num, den)`: normalizes to
`min(num, 100)` (or `min(100*num/den, 100)` when `den` is given), announces
a `progress` event, then either `finalize("success", 100)` when the value
reached 100 or `info({progress})` (a metadata `hashSet`) otherwise. -/
def Task.progress (t : Task) (num : ℚ) (den : Option ℚ) : StepResult :=
  let p := match den with
    | none => min num 100
    | some d => min (100 * num / d) 100
  if p = 100 then
    let fin := t.finalize "success" (some 100) none
    { events := ["progress"], task := fin.1, ops := fin.2 }
  else
    { events := ["progress"]
      task := { t with metadata := { t.metadata with progress := some p } }
      ops := [StoreOp.hashSet t.key "metadata"] }

/-- The store calls issued by `Task.prototype.queue()` (after `deactivate`,
which issues none): `sortedAdd(waitKey, [priority, id])` then
`push(typeKey, [id])`.  `queue` leaves `metadata` untouched. -/
def Task.queueOps (t : Task) : List StoreOp :=
  [StoreOp.sortedAdd (waitKeyOf t) t.metadata.priority t.id,
   StoreOp.push (typeKeyOf t) t.id]

/-- `Task.prototype.failure(err)`: with attempts left, announces `retry`
and returns `this.queue()` (which neither changes nor persists `metadata`);
otherwise announces `failure` and finalizes with `state="failure"`,
`progress=null` and the stringified error (or "Unknown error"). -/
def Task.failure (t : Task) (err : Option String) : StepResult :=
  if t.metadata.attempts < t.metadata.maxAttempts then
    { events := ["retry"], task := t, ops := Task.queueOps t }
  else
    let errMsg := match err with | some e => e | none => "Unknown error"
    let fin := t.finalize "failure" none (some errMsg)
    { events := ["failure"], task := fin.1, ops := fin.2 }

/-- `Task.prototype.remove()`: announces `remove` (whether that announce
broadcasts is `Task.announceIsBroadcast t "remove"`), then deletes the hash
record. -/
def Task.removeStep (t : Task) : StepResult :=
  { events := ["remove"], task := t, ops := [StoreOp.remove t.key] }

/-- Association-list lookup (models reading a keyed store structure). -/
def alookup {α β : Type} [DecidableEq α] : List (α × β) → α → Option β
  | [], _ => none
  | (k, v) :: r, a => if a = k then some v else alookup r a

/-- Association-list upsert (models writing a keyed store structure). -/
def aset {α β : Type} [DecidableEq α] : List (α × β) → α → β → List (α × β)
  | [], k, v => [(k, v)]
  | (k', v') :: r, k, v => if k' = k then (k, v) :: r else (k', v') :: aset r k v

/-- The backing store state touched by `save()`: the per-id hash records,
the per-type uid→id dedup hashes (flattened to `(uidKey, uid) ↦ id`), the
per-type waiting sorted sets, and the per-type notify lists. -/
structure Store where
  records : List (String × Task) := []
  uids : List ((String × String) × String) := []
  waiting : List (String × List Redis.Entry) := []
  notify : List (String × List String) := []
deriving DecidableEq, Repr

inductive SaveError where
  | duplicateKey
deriving DecidableEq, Repr

/-- The outcome of one `save()` call: the settled promise, the resulting
store state, and the write operations performed, in order. -/
structure SaveResult where
  result : Except SaveError Unit
  store : Store
  ops : List StoreOp
deriving Repr

/-- Modelled from the spec: `factory.lacksTask(type, uid)` lives in the
factory module (`index.js`), which is not among the provided sources.  Per
the spec, `save()` "validates uid uniqueness for the type (rejects with a
duplicate-key error if taken)" against the `<prefix><type>:uids` hash that
maps `uid → id`; so the check resolves iff that hash has no entry for the
uid. -/
def lacksTask (s : Store) (uidKey uid : String) : Bool :=
  (alookup s.uids (uidKey, uid)).isNone

/-- `Task.prototype.save()`: runs `sequence([uidFxns.check, storeTask,
self.queue, uidFxns.update])` — the sequence stops at the first rejection,
so a duplicate uid rejects before any write.  On the success path:
`hashMultiSet(key, serialize)`, then `queue()` (`sortedAdd(waitKey,
[priority, id])` then `push(typeKey, [id])`), then the uid reservation
`hashSet(uidKey, uid, id)` when a uid is present. -/
def Task.save (t : Task) (s : Store) : SaveResult :=
  let dup : Bool := match t.uid with
    | some u => !(lacksTask s (uidKeyOf t) u)
    | none => false
  if dup then
    { result := .error .duplicateKey, store := s, ops := [] }
  else
    let s1 : Store := { s with records := aset s.records t.key t }
    let zs := (alookup s1.waiting (waitKeyOf t)).getD []
    let w2 := aset s1.waiting (waitKeyOf t)
      (TransportRedis.sortedAdd zs t.metadata.priority t.id)
    let s2 : Store := { s1 with waiting := w2 }
    let n3 := aset s2.notify (typeKeyOf t)
      ((alookup s2.notify (typeKeyOf t)).getD [] ++ [t.id])
    let s3 : Store := { s2 with notify := n3 }
    let s4 : Store := match t.uid with
      | some u => { s3 with uids := aset s3.uids (uidKeyOf t, u) t.id }
      | none => s3
    let uidOps := match t.uid with
      | some u => [StoreOp.hashSet (uidKeyOf t) u]
      | none => []
    { result := .ok ()
      store := s4
      ops := [StoreOp.hashMultiSet t.key,
              StoreOp.sortedAdd (waitKeyOf t) t.metadata.priority t.id,
              StoreOp.push (typeKeyOf t) t.id] ++ uidOps }

end Taskco

namespace Dispatcher

open Taskco

/-- The parsed `{id, event, args}` envelope carried on the events
channel. -/
structure Envelope where
  id : String
  event : String
  args : List String
deriving DecidableEq, Repr

/-- The observable outcome of routing one message: the watch registry
afterwards, the arguments fired at the watched task's local listeners, the
deferred watch-registry removals scheduled (id, seconds), and what was
logged. -/
structure RouteOutcome where
  tasks : List (String × Task)
  emitted : List String
  scheduled : List (String × Nat)
  log : List String
deriving DecidableEq, Repr

/-- `privates.ignoreTask(id)`: drop the id from the watch registry. -/
def ignoreTask (tasks : List (String × Task)) (id : String) :
    List (String × Task) :=
  tasks.filter (fun p => p.1 ≠ id)

/-- The body of `privates.routeMessage` without its `try/catch`:
`JSON.parse` (modelled by the `parse` argument; `none` is a thrown
`SyntaxError`), the watch-registry lookup (a miss is not a throw — the
`if (task)` guard just skips), `task.emit(...args)`, then the registry
maintenance: `remove` drops the entry at once; `success`/`failure` with
`removeAfter` set schedule a deferred drop. -/
def routeMessageBody (parse : String → Option Envelope)
    (tasks : List (String × Task)) (raw : String) :
    Except String RouteOutcome :=
  match parse raw with
  | none => .error "SyntaxError: unexpected token"
  | some msg =>
    match alookup tasks msg.id with
    | none => .ok { tasks := tasks, emitted := [], scheduled := [], log := [] }
    | some task =>
      if msg.event = "remove" then
        .ok { tasks := ignoreTask tasks msg.id, emitted := msg.args,
              scheduled := [], log := [] }
      else
        match task.metadata.removeAfter with
        | some ra =>
          if msg.event = "success" ∨ msg.event = "failure" then
            .ok { tasks := tasks, emitted := msg.args,
                  scheduled := [(msg.id, ra)], log := [] }
          else
            .ok { tasks := tasks, emitted := msg.args, scheduled := [], log := [] }
        | none =>
          .ok { tasks := tasks, emitted := msg.args, scheduled := [], log := [] }

/-- `privates.routeMessage` as shipped: the whole body runs inside
`try { … } catch (err) { console.log("Error", err); }`, so a thrown parse
error is converted into a log line and an unchanged watch registry. -/
def routeMessage (parse : String → Option Envelope)
    (tasks : List (String × Task)) (raw : String) : RouteOutcome :=
  match routeMessageBody parse tasks raw with
  | .ok o => o
  | .error e => { tasks := tasks, emitted := [], scheduled := [],
                  log := ["Error " ++ e] }

end Dispatcher

namespace Taskco

/-- Digit-string evaluation used by the `parseFloat` model. -/
def natOfDigits (l : List Char) : Nat :=
  l.foldl (fun a c => 10 * a + (c.toNat - '0'.toNat)) 0

/-- JS `parseFloat`, restricted to the grammar relevant here: skip leading
whitespace, optional sign, decimal digits with an optional fractional
part; `none` models `NaN` (no numeric prefix at all).  Exponent notation
is irrelevant for the strings this file applies it to. -/
def jsParseFloat (s : String) : Option ℚ :=
  let cs := s.data.dropWhile (fun c => c.isWhitespace)
  let signed : ℚ × List Char :=
    match cs with
    | '-' :: r => (-1, r)
    | '+' :: r => (1, r)
    | _ => (1, cs)
  let intPart := signed.2.takeWhile (fun c => c.isDigit)
  let rest := signed.2.dropWhile (fun c => c.isDigit)
  let fracPart := match rest with
    | '.' :: r => r.takeWhile (fun c => c.isDigit)
    | _ => []
  if intPart.isEmpty && fracPart.isEmpty then none
  else some (signed.1 *
    ((natOfDigits intPart : ℚ) + (natOfDigits fracPart : ℚ) / (10 : ℚ) ^ fracPart.length))

/-- The string JS produces when `parseFloat` coerces the `progress` method
itself to a string: it begins with the word `function`, and `parseFloat`
only ever examines the (absent) leading numeric prefix, so the tail is
irrelevant. -/
def progressFunctionSource : String := "function (num, den)"

/-- The no-argument getter path of `Task.prototype.progress`: the source
returns `parseFloat(this.progress)` — `this.progress` is the (bound)
progress *method*, not `this.metadata.progress`, so `parseFloat` coerces a
function to a string and parses that. -/
def Task.progressGet (_t : Task) : Option ℚ :=
  jsParseFloat progressFunctionSource

/-- A freshly-created task, as the constructor builds it with no options. -/
def sampleTask : Task :=
  { id := "1"
    key := "tasks:1"
    type := "email"
    uid := none
    prefixStr := ""
    metadata :=
      { created := 0, state := "waiting", progress := some 0,
        broadcasts := ["remove"], attempts := 0, maxAttempts := 1,
        priority := 0, broadcastAll := false, removeAfter := none,
        error := none } }

/-- A task mid-execution: activated once (`state="active"`, `attempts=1`)
with `maxAttempts=3`, so retries remain. -/
def activeTask : Task :=
  { sampleTask with metadata :=
      { sampleTask.metadata with state := "active", attempts := 1, maxAttempts := 3 } }

/-- A task with a caller-supplied uid, for the dedup scenario. -/
def uidTaskA : Task :=
  { sampleTask with id := "1", key := "tasks:1", uid := some "joe" }

/-- A second task with the same type and the same uid as `uidTaskA`. -/
def uidTaskB : Task :=
  { sampleTask with id := "2", key := "tasks:2", uid := some "joe" }

/-- A task created with a caller-supplied `broadcasts` option, which the
constructor's options loop copies over the default `['remove']` list. -/
def overrideTask : Task :=
  Task.create "" {} "7" "email" none { broadcasts := some ["progress"] } 0

end Taskco

namespace Redis

theorem charListLtb_cons_iff {a b : Char} {as bs : List Char} :
    charListLtb (a :: as) (b :: bs) = true ↔
      a < b ∨ (a = b ∧ charListLtb as bs = true) := by
  rcases lt_trichotomy a b with h | h | h
  · simp [charListLtb, h]
  · subst h; simp [charListLtb, lt_irrefl]
  · have h1 : ¬ a < b := lt_asymm h
    have h2 : a ≠ b := ne_of_gt h
    simp [charListLtb, h, h1, h2]

theorem charListLtb_irrefl : ∀ l : List Char, charListLtb l l = false
  | [] => rfl
  | _ :: as => by simp [charListLtb, lt_irrefl, charListLtb_irrefl as]

theorem charListLtb_trans :
    ∀ {a b c : List Char}, charListLtb a b = true → charListLtb b c = true →
      charListLtb a c = true
  | [], b, c, hab, hbc => by
    cases b with
    | nil => simp [charListLtb] at hab
    | cons b bs =>
      cases c with
      | nil => simp [charListLtb] at hbc
      | cons c cs => simp [charListLtb]
  | _ :: _, [], _, hab, _ => by simp [charListLtb] at hab
  | _ :: _, _ :: _, [], _, hbc => by simp [charListLtb] at hbc
  | a :: as, b :: bs, c :: cs, hab, hbc => by
    rw [charListLtb_cons_iff] at hab hbc ⊢
    rcases hab with hab | ⟨rfl, hab⟩
    · rcases hbc with hbc | ⟨rfl, _⟩
      · exact Or.inl (lt_trans hab hbc)
      · exact Or.inl hab
    · rcases hbc with hbc | ⟨rfl, hbc⟩
      · exact Or.inl hbc
      · exact Or.inr ⟨rfl, charListLtb_trans hab hbc⟩

theorem charListLtb_trichotomy :
    ∀ a b : List Char, charListLtb a b = true ∨ a = b ∨ charListLtb b a = true
  | [], [] => Or.inr (Or.inl rfl)
  | [], _ :: _ => Or.inl (by simp [charListLtb])
  | _ :: _, [] => Or.inr (Or.inr (by simp [charListLtb]))
  | a :: as, b :: bs => by
    rcases lt_trichotomy a b with h | h | h
    · exact Or.inl (charListLtb_cons_iff.2 (Or.inl h))
    · subst h
      rcases charListLtb_trichotomy as bs with h | h | h
      · exact Or.inl (charListLtb_cons_iff.2 (Or.inr ⟨rfl, h⟩))
      · exact Or.inr (Or.inl (by rw [h]))
      · exact Or.inr (Or.inr (charListLtb_cons_iff.2 (Or.inr ⟨rfl, h⟩)))
    · exact Or.inr (Or.inr (charListLtb_cons_iff.2 (Or.inl h)))

theorem entryLt_irrefl (e : Entry) : ¬ entryLt e e := by
  simp [entryLt, charListLtb_irrefl]

theorem entryLt_trans {a b c : Entry} (hab : entryLt a b) (hbc : entryLt b c) :
    entryLt a c := by
  rcases hab with hab | ⟨hab, hab'⟩
  · rcases hbc with hbc | ⟨hbc, _⟩
    · exact Or.inl (lt_trans hab hbc)
    · exact Or.inl (hbc ▸ hab)
  · rcases hbc with hbc | ⟨hbc, hbc'⟩
    · exact Or.inl (hab ▸ hbc)
    · exact Or.inr ⟨hab.trans hbc, charListLtb_trans hab' hbc'⟩

theorem entryLt_asymm {a b : Entry} (h : entryLt a b) : ¬ entryLt b a :=
  fun h' => entryLt_irrefl a (entryLt_trans h h')

theorem entryLt_trichotomy (a b : Entry) : entryLt a b ∨ a = b ∨ entryLt b a := by
  obtain ⟨ma, sa⟩ := a
  obtain ⟨mb, sb⟩ := b
  rcases lt_trichotomy sa sb with h | h | h
  · exact Or.inl (Or.inl h)
  · subst h
    rcases charListLtb_trichotomy ma.data mb.data with h | h | h
    · exact Or.inl (Or.inr ⟨rfl, h⟩)
    · exact Or.inr (Or.inl (by rw [String.ext h]))
    · exact Or.inr (Or.inr (Or.inr ⟨rfl, h⟩))
  · exact Or.inr (Or.inr (Or.inl h))

theorem not_entryLt_trans {a b c : Entry}
    (hab : ¬ entryLt a b) (hbc : ¬ entryLt b c) : ¬ entryLt a c := by
  intro hac
  rcases entryLt_trichotomy a b with h | rfl | h
  · exact hab h
  · exact hbc hac
  · exact hbc (entryLt_trans h hac)

theorem zmin_eq_none : ∀ {z : List Entry}, zmin z = none → z = []
  | [], _ => rfl
  | _ :: rest, h => by
    unfold zmin at h
    cases h' : zmin rest
    · simp [h'] at h
    · simp only [h'] at h
      split at h <;> simp_all

theorem zmin_mem : ∀ {z : List Entry} {e : Entry}, zmin z = some e → e ∈ z
  | [], _, h => by simp [zmin] at h
  | a :: rest, e, h => by
    unfold zmin at h
    cases h' : zmin rest with
    | none => simp [h'] at h; simp [h]
    | some m =>
      simp only [h'] at h
      by_cases hm : entryLt m a
      · rw [if_pos hm] at h
        cases h
        exact List.mem_cons_of_mem _ (zmin_mem h')
      · rw [if_neg hm] at h
        cases h
        exact List.mem_cons_self _ _

theorem zmin_not_lt : ∀ {z : List Entry} {m : Entry}, zmin z = some m →
    ∀ e ∈ z, ¬ entryLt e m
  | [], _, h => by simp [zmin] at h
  | a :: rest, m, h => by
    unfold zmin at h
    cases h' : zmin rest with
    | none =>
      simp [h'] at h
      subst h
      rcases zmin_eq_none h' with rfl
      intro e he
      rw [List.mem_singleton] at he
      subst he
      exact entryLt_irrefl e
    | some m' =>
      simp only [h'] at h
      by_cases hm : entryLt m' a
      · rw [if_pos hm] at h
        cases h
        intro e he
        rcases List.mem_cons.1 he with rfl | he
        · exact fun hc => entryLt_asymm hm hc
        · exact zmin_not_lt h' e he
      · rw [if_neg hm] at h
        cases h
        intro e he
        rcases List.mem_cons.1 he with rfl | he
        · exact entryLt_irrefl e
        · exact not_entryLt_trans (zmin_not_lt h' e he) hm

theorem popAllFuel_is_iterated_sortedPop (n : Nat) (z : List Entry) :
    popAllFuel (n + 1) z =
      match (sortedPop z).1 with
      | none => []
      | some m => m :: popAllFuel n (sortedPop z).2 := by
  cases h : zmin z <;> simp [popAllFuel, sortedPop, h]

theorem popAllFuel_mem : ∀ (n : Nat) (z : List Entry), z.length ≤ n →
    ∀ {e : Entry}, e ∈ z → e.1 ∈ popAllFuel n z := by
  intro n
  induction n with
  | zero =>
    intro z hn e he
    rw [Nat.le_zero, List.length_eq_zero] at hn
    subst hn
    simp at he
  | succ n ih =>
    intro z hn e he
    cases hm : zmin z with
    | none =>
      rcases zmin_eq_none hm with rfl
      simp at he
    | some m =>
      simp only [popAllFuel, hm]
      by_cases hem : e = m
      · subst hem
        exact List.mem_cons_self _ _
      · refine List.mem_cons_of_mem _ (ih _ ?_ ?_)
        · rw [List.length_erase_of_mem (zmin_mem hm)]
          omega
        · exact (List.mem_erase_of_ne hem).2 he

theorem popAllFuel_index_lt : ∀ (n : Nat) (z : List Entry), z.length ≤ n →
    (members z).Nodup → ∀ {ea eb : Entry}, ea ∈ z → eb ∈ z → entryLt ea eb →
    (popAllFuel n z).indexOf ea.1 < (popAllFuel n z).indexOf eb.1 := by
  intro n
  induction n with
  | zero =>
    intro z hn _ ea eb hea _ _
    rw [Nat.le_zero, List.length_eq_zero] at hn
    subst hn
    simp at hea
  | succ n ih =>
    intro z hn hnd ea eb hea heb hlt
    cases hm : zmin z with
    | none =>
      rcases zmin_eq_none hm with rfl
      simp at hea
    | some m =>
      simp only [popAllFuel, hm]
      have hfst := List.inj_on_of_nodup_map (f := Prod.fst) hnd
      have hab : ea ≠ eb := fun h => entryLt_irrefl ea (h ▸ hlt)
      have hab1 : ea.1 ≠ eb.1 := fun h => hab (hfst hea heb h)
      by_cases heam : ea = m
      · subst heam
        rw [List.indexOf_cons_self, List.indexOf_cons_ne _ hab1]
        exact Nat.succ_pos _
      · have hebm : eb ≠ m := by
          rintro rfl
          exact zmin_not_lt hm ea hea hlt
        have hma : m.1 ≠ ea.1 := fun h => heam (hfst hea (zmin_mem hm) h.symm)
        have hmb : m.1 ≠ eb.1 := fun h => hebm (hfst heb (zmin_mem hm) h.symm)
        rw [List.indexOf_cons_ne _ hma, List.indexOf_cons_ne _ hmb]
        have hsub := List.Sublist.map Prod.fst (List.erase_sublist m z)
        have hnd' : (members (z.erase m)).Nodup := List.Nodup.sublist hsub hnd
        refine Nat.succ_lt_succ (ih (z.erase m) ?_ hnd' ?_ ?_ hlt)
        · rw [List.length_erase_of_mem (zmin_mem hm)]
          omega
        · exact (List.mem_erase_of_ne heam).2 hea
        · exact (List.mem_erase_of_ne hebm).2 heb

theorem deliveredBefore_of_entryLt {z : List Entry} {ea eb : Entry}
    (hnd : (members z).Nodup) (hea : ea ∈ z) (heb : eb ∈ z)
    (hlt : entryLt ea eb) : deliveredBefore z ea.1 eb.1 :=
  ⟨popAllFuel_mem _ _ le_rfl hea, popAllFuel_mem _ _ le_rfl heb,
    popAllFuel_index_lt _ _ le_rfl hnd hea heb hlt⟩

theorem zadd_of_not_mem : ∀ {z : List Entry} {m : String} {s : Int},
    m ∉ members z → zadd z m s = z ++ [(m, s)]
  | [], _, _, _ => rfl
  | e :: rest, m, s, h => by
    have h1 : e.1 ≠ m := fun hh => h (by simp [members, hh.symm])
    have h2 : m ∉ members rest := fun hh => h (by simp [members] at hh ⊢; tauto)
    simp [zadd, h1, zadd_of_not_mem h2]

theorem members_append (z₁ z₂ : List Entry) :
    members (z₁ ++ z₂) = members z₁ ++ members z₂ := List.map_append _ _ _

theorem not_mem_members_append_single {z : List Entry} {a b : String} {sa : Int}
    (hb : b ∉ members z) (hba : b ≠ a) : b ∉ members (z ++ [(a, sa)]) := by
  rw [members_append]
  intro h
  rcases List.mem_append.1 h with h | h
  · exact hb h
  · exact hba (by simpa [members] using h)

theorem members_append_pair (z : List Entry) (a b : String) (sa sb : Int) :
    members (z ++ [(a, sa)] ++ [(b, sb)]) = members z ++ [a, b] := by
  simp [members]

theorem nodup_members_pair {z : List Entry} {a b : String} (sa sb : Int)
    (hnd : (members z).Nodup) (ha : a ∉ members z) (hb : b ∉ members z)
    (hab : a ≠ b) : (members (z ++ [(a, sa)] ++ [(b, sb)])).Nodup := by
  rw [members_append_pair]
  refine List.nodup_append.2 ⟨hnd, ?_, ?_⟩
  · simp [hab]
  · intro x hx hx'
    rcases (by simpa using hx' : x = a ∨ x = b) with rfl | rfl
    · exact ha hx
    · exact hb hx

end Redis

section PriorityOrdering

open Redis

/-- C1: for two distinct fresh ids `a`, `b` added to any well-formed waiting
set with `priority(a) > priority(b)`, draining the set with `sortedPop`
(what `getNextJob` does to hand ids to idle workers) yields `a` strictly
before `b`, whichever of the two was inserted first: `sortedAdd` stores ids
ranked by negated priority and `sortedPop` removes the minimum-rank
member. -/
theorem higher_priority_delivered_first (z : List Redis.Entry) (pa pb : Int)
    (a b : String) (hnd : (Redis.members z).Nodup)
    (ha : a ∉ Redis.members z) (hb : b ∉ Redis.members z)
    (hab : a ≠ b) (hp : pb < pa) :
    Redis.deliveredBefore
      (TransportRedis.sortedAdd (TransportRedis.sortedAdd z pa a) pb b) a b ∧
    Redis.deliveredBefore
      (TransportRedis.sortedAdd (TransportRedis.sortedAdd z pb b) pa a) a b := by
  have hlt : entryLt (a, -pa) (b, -pb) := Or.inl (by omega)
  constructor
  · have e1 : TransportRedis.sortedAdd z pa a = z ++ [(a, -pa)] :=
      zadd_of_not_mem ha
    have hb' : b ∉ members (z ++ [(a, -pa)]) :=
      not_mem_members_append_single hb (fun h => hab h.symm)
    have e2 : TransportRedis.sortedAdd (z ++ [(a, -pa)]) pb b
        = z ++ [(a, -pa)] ++ [(b, -pb)] := zadd_of_not_mem hb'
    rw [show TransportRedis.sortedAdd (TransportRedis.sortedAdd z pa a) pb b
        = z ++ [(a, -pa)] ++ [(b, -pb)] from e1 ▸ e2]
    exact deliveredBefore_of_entryLt (nodup_members_pair _ _ hnd ha hb hab)
      (by simp) (by simp) hlt
  · have e1 : TransportRedis.sortedAdd z pb b = z ++ [(b, -pb)] :=
      zadd_of_not_mem hb
    have ha' : a ∉ members (z ++ [(b, -pb)]) :=
      not_mem_members_append_single ha hab
    have e2 : TransportRedis.sortedAdd (z ++ [(b, -pb)]) pa a
        = z ++ [(b, -pb)] ++ [(a, -pa)] := zadd_of_not_mem ha'
    rw [show TransportRedis.sortedAdd (TransportRedis.sortedAdd z pb b) pa a
        = z ++ [(b, -pb)] ++ [(a, -pa)] from e1 ▸ e2]
    exact deliveredBefore_of_entryLt (nodup_members_pair _ _ hnd hb ha (fun h => hab h.symm))
      (by simp) (by simp) hlt

/-- Witness for C1 at a concrete input: ids "A" (priority 10) and "B"
(priority 0) added to the empty waiting set. -/
theorem higher_priority_delivered_first_witness :
    ((Redis.members ([] : List Redis.Entry)).Nodup ∧
      "A" ∉ Redis.members ([] : List Redis.Entry) ∧
      "B" ∉ Redis.members ([] : List Redis.Entry) ∧
      "A" ≠ "B" ∧ (0 : Int) < 10) ∧
    (Redis.deliveredBefore
        (TransportRedis.sortedAdd (TransportRedis.sortedAdd [] 10 "A") 0 "B") "A" "B" ∧
      Redis.deliveredBefore
        (TransportRedis.sortedAdd (TransportRedis.sortedAdd [] 0 "B") 10 "A") "A" "B") :=
  ⟨by decide,
    higher_priority_delivered_first [] 10 0 "A" "B" (by decide) (by decide)
      (by decide) (by decide) (by decide)⟩

/-- C2: evaluation of the retrieved code at the failing input.  With equal
priority 0, inserting id "9" first and id "10" second, the drain order is
["10", "9"]: Redis breaks score ties lexicographically by member, so the
earlier-submitted "9" is NOT delivered first — the FIFO tie-break the
transport's own contract demands does not hold. -/
theorem equal_priority_tie_is_lexicographic :
    Redis.popAll
        (TransportRedis.sortedAdd (TransportRedis.sortedAdd [] 0 "9") 0 "10")
      = ["10", "9"] ∧
    ¬ Redis.deliveredBefore
        (TransportRedis.sortedAdd (TransportRedis.sortedAdd [] 0 "9") 0 "10")
        "9" "10" := by decide

end PriorityOrdering

namespace Taskco

theorem alookup_aset_self {α β : Type} [DecidableEq α]
    (l : List (α × β)) (k : α) (v : β) : alookup (aset l k v) k = some v := by
  induction l with
  | nil => simp [aset, alookup]
  | cons p r ih =>
    obtain ⟨k', v'⟩ := p
    by_cases h : k' = k
    · subst h
      simp [aset, alookup]
    · simp [aset, alookup, h, Ne.symm h, ih]

/-- Sanity check: the `parseFloat` model does parse numeric strings (the
numeric value itself is not kernel-evaluated here; only that a number is
produced rather than `NaN`). -/
theorem jsParseFloat_parses_numbers : (jsParseFloat "42").isSome = true := by decide

end Taskco

section ClaimTheorems

open Taskco

/-- C3: in every execution of `save()`, every append of the id to the
type's notify list (`push` on the type key) is preceded by the insert of
the id into the type's priority structure (`sortedAdd` on the `:waiting`
key), and on the success path the notify append does happen — so a
consumer woken by the notify append can always find a matching priority
entry. -/
theorem save_inserts_waiting_before_notify (t : Task) (s : Store) :
    (∀ j, (Task.save t s).ops.get? j = some (StoreOp.push (typeKeyOf t) t.id) →
      ∃ i, i < j ∧ (Task.save t s).ops.get? i =
        some (StoreOp.sortedAdd (waitKeyOf t) t.metadata.priority t.id)) ∧
    ((Task.save t s).result = .ok () →
      ∃ j, (Task.save t s).ops.get? j = some (StoreOp.push (typeKeyOf t) t.id)) := by
  cases hu : t.uid with
  | none =>
    have hops : (Task.save t s).ops =
        [StoreOp.hashMultiSet t.key,
         StoreOp.sortedAdd (waitKeyOf t) t.metadata.priority t.id,
         StoreOp.push (typeKeyOf t) t.id] := by
      simp [Task.save, hu]
    constructor
    · intro j hj
      rw [hops] at hj
      match j with
      | 0 => simp at hj
      | 1 => simp at hj
      | 2 => exact ⟨1, by omega, by rw [hops]; rfl⟩
      | n + 3 => simp at hj
    · intro _
      exact ⟨2, by rw [hops]; rfl⟩
  | some u =>
    by_cases hl : lacksTask s (uidKeyOf t) u = true
    · have hops : (Task.save t s).ops =
          [StoreOp.hashMultiSet t.key,
           StoreOp.sortedAdd (waitKeyOf t) t.metadata.priority t.id,
           StoreOp.push (typeKeyOf t) t.id,
           StoreOp.hashSet (uidKeyOf t) u] := by
        simp [Task.save, hu, hl]
      constructor
      · intro j hj
        rw [hops] at hj
        match j with
        | 0 => simp at hj
        | 1 => simp at hj
        | 2 => exact ⟨1, by omega, by rw [hops]; rfl⟩
        | 3 => simp at hj
        | n + 4 => simp at hj
      · intro _
        exact ⟨2, by rw [hops]; rfl⟩
    · rw [Bool.not_eq_true] at hl
      have hops : (Task.save t s).ops = [] := by
        simp [Task.save, hu, hl]
      have hres : (Task.save t s).result = .error .duplicateKey := by
        simp [Task.save, hu, hl]
      constructor
      · intro j hj
        rw [hops] at hj
        simp at hj
      · intro h
        rw [hres] at h
        simp at h

/-- Witness for C3: a concrete `save()` on the empty store — the notify
push sits at index 2 and the waiting insert at index 1 before it. -/
theorem save_inserts_waiting_before_notify_witness :
    ((Task.save sampleTask {}).ops.get? 2 =
      some (StoreOp.push (typeKeyOf sampleTask) sampleTask.id)) ∧
    (∃ i, i < 2 ∧ (Task.save sampleTask {}).ops.get? i =
      some (StoreOp.sortedAdd (waitKeyOf sampleTask)
        sampleTask.metadata.priority sampleTask.id)) :=
  ⟨by decide, (save_inserts_waiting_before_notify sampleTask {}).1 2 (by decide)⟩

/-- C4 counterexample: a task with retries left (`attempts=1 < 3`):
`failure()` announces `retry` and re-enqueues, but the task's state stays
`"active"` — `queue()` never resets it to `"waiting"` (`deactivate` is a
stub), so the claim's "afterwards the task's state is waiting" is false. -/
theorem failure_retry_keeps_state_cex :
    activeTask.metadata.attempts < activeTask.metadata.maxAttempts ∧
    (Task.failure activeTask none).events = ["retry"] ∧
    (Task.failure activeTask none).task.metadata.state = "active" ∧
    ¬ (Task.failure activeTask none).task.metadata.state = "waiting" := by decide

/-- C4 amended: with `attempts < maxAttempts`, `failure(err)` announces
`retry` and re-enqueues via `queue()` (waiting insert + notify push) but
leaves the in-memory task — including `metadata.state` — entirely
unchanged and persists nothing; only with attempts exhausted does it
announce `failure` and finalize with `state="failure"`. -/
theorem failure_retry_requeues_without_state_change (t : Task) (err : Option String) :
    (t.metadata.attempts < t.metadata.maxAttempts →
      (Task.failure t err).events = ["retry"] ∧
      (Task.failure t err).task = t ∧
      (Task.failure t err).ops = Task.queueOps t) ∧
    (¬ t.metadata.attempts < t.metadata.maxAttempts →
      (Task.failure t err).events = ["failure"] ∧
      (Task.failure t err).task.metadata.state = "failure") := by
  constructor
  · intro h
    simp [Task.failure, h]
  · intro h
    simp [Task.failure, h, Task.finalize]

/-- Witness for C4's amended theorem at `activeTask`. -/
theorem failure_retry_requeues_without_state_change_witness :
    (activeTask.metadata.attempts < activeTask.metadata.maxAttempts) ∧
    ((Task.failure activeTask none).events = ["retry"] ∧
      (Task.failure activeTask none).task = activeTask ∧
      (Task.failure activeTask none).ops = Task.queueOps activeTask) :=
  ⟨by decide,
    (failure_retry_requeues_without_state_change activeTask none).1 (by decide)⟩

/-- C5 counterexample: `progress(100)` and `success()` do NOT announce the
same events — `progress(100)` announces `progress` and then calls
`finalize` directly (it does not delegate to `success`), so no `success`
event is announced. -/
theorem progress100_events_differ_cex :
    (Task.progress sampleTask 100 none).events = ["progress"] ∧
    (Task.success sampleTask).events = ["success"] ∧
    (Task.progress sampleTask 100 none).events ≠ (Task.success sampleTask).events := by
  decide

/-- C5 amended: `progress(100)` yields a final in-memory/persisted state
and a store-operation sequence identical to `success()` —
`state="success"`, `progress=100`, `error` untouched — but the announced
events differ: `progress` versus `success`. -/
theorem progress100_same_final_state (t : Task) :
    (Task.progress t 100 none).task = (Task.success t).task ∧
    (Task.progress t 100 none).ops = (Task.success t).ops ∧
    (Task.progress t 100 none).events = ["progress"] ∧
    (Task.success t).events = ["success"] := by
  simp [Task.progress, Task.success, min_self]

/-- C6: with the uid not yet reserved, the first `save()` succeeds and its
hash record is queryable; a second `save()` with the same type and uid
rejects with a duplicate-key error, changes nothing in the store, performs
no write operation, and the first record remains queryable. -/
theorem save_of_uid_free (t : Task) (u : String) (s : Store) (h : t.uid = some u)
    (hfree : alookup s.uids (uidKeyOf t, u) = none) :
    Task.save t s =
      { result := .ok ()
        store :=
          { records := aset s.records t.key t
            uids := aset s.uids (uidKeyOf t, u) t.id
            waiting := aset s.waiting (waitKeyOf t)
              (TransportRedis.sortedAdd ((alookup s.waiting (waitKeyOf t)).getD [])
                t.metadata.priority t.id)
            notify := aset s.notify (typeKeyOf t)
              ((alookup s.notify (typeKeyOf t)).getD [] ++ [t.id]) }
        ops := [StoreOp.hashMultiSet t.key,
                StoreOp.sortedAdd (waitKeyOf t) t.metadata.priority t.id,
                StoreOp.push (typeKeyOf t) t.id,
                StoreOp.hashSet (uidKeyOf t) u] } := by
  have hlk : lacksTask s (uidKeyOf t) u = true := by
    simp [lacksTask, hfree]
  simp [Task.save, h, hlk]

theorem save_of_uid_taken (t : Task) (u : String) (s : Store) (h : t.uid = some u)
    (v : String) (htaken : alookup s.uids (uidKeyOf t, u) = some v) :
    Task.save t s = { result := .error .duplicateKey, store := s, ops := [] } := by
  have hlk : lacksTask s (uidKeyOf t) u = false := by
    simp [lacksTask, htaken]
  simp [Task.save, h, hlk]

theorem duplicate_uid_second_save_rejected (t1 t2 : Task) (s : Store) (u : String)
    (h1 : t1.uid = some u) (h2 : t2.uid = some u)
    (hty : t2.type = t1.type) (hpre : t2.prefixStr = t1.prefixStr)
    (hfree : alookup s.uids (uidKeyOf t1, u) = none) :
    (Task.save t1 s).result = .ok () ∧
    alookup (Task.save t1 s).store.records t1.key = some t1 ∧
    (Task.save t2 (Task.save t1 s).store).result = .error .duplicateKey ∧
    (Task.save t2 (Task.save t1 s).store).store = (Task.save t1 s).store ∧
    (Task.save t2 (Task.save t1 s).store).ops = [] ∧
    alookup (Task.save t2 (Task.save t1 s).store).store.records t1.key = some t1 := by
  have hkey : uidKeyOf t2 = uidKeyOf t1 := by
    rw [uidKeyOf, uidKeyOf, hty, hpre]
  have hs1 := save_of_uid_free t1 u s h1 hfree
  have hq : alookup (Task.save t1 s).store.records t1.key = some t1 := by
    rw [hs1]
    exact alookup_aset_self _ _ _
  have htaken2 : alookup (Task.save t1 s).store.uids (uidKeyOf t2, u) = some t1.id := by
    rw [hs1, hkey]
    exact alookup_aset_self _ _ _
  have hs2 := save_of_uid_taken t2 u (Task.save t1 s).store h2 t1.id htaken2
  refine ⟨?_, hq, ?_, ?_, ?_, ?_⟩
  · rw [hs1]
  · rw [hs2]
  · rw [hs2]
  · rw [hs2]
  · rw [hs2]
    exact hq

/-- Witness for C6: two concrete tasks of type "email" sharing uid "joe",
saved in sequence against the empty store. -/
theorem duplicate_uid_second_save_rejected_witness :
    (uidTaskA.uid = some "joe" ∧ uidTaskB.uid = some "joe" ∧
      uidTaskB.type = uidTaskA.type ∧ uidTaskB.prefixStr = uidTaskA.prefixStr ∧
      alookup (Store.mk [] [] [] []).uids (uidKeyOf uidTaskA, "joe") = none) ∧
    ((Task.save uidTaskA (Store.mk [] [] [] [])).result = .ok () ∧
      alookup (Task.save uidTaskA (Store.mk [] [] [] [])).store.records uidTaskA.key
        = some uidTaskA ∧
      (Task.save uidTaskB (Task.save uidTaskA (Store.mk [] [] [] [])).store).result
        = .error .duplicateKey ∧
      (Task.save uidTaskB (Task.save uidTaskA (Store.mk [] [] [] [])).store).store
        = (Task.save uidTaskA (Store.mk [] [] [] [])).store ∧
      (Task.save uidTaskB (Task.save uidTaskA (Store.mk [] [] [] [])).store).ops = [] ∧
      alookup (Task.save uidTaskB (Task.save uidTaskA (Store.mk [] [] [] [])).store).store.records
        uidTaskA.key = some uidTaskA) :=
  ⟨⟨rfl, rfl, rfl, rfl, rfl⟩,
    duplicate_uid_second_save_rejected uidTaskA uidTaskB (Store.mk [] [] [] []) "joe"
      rfl rfl rfl rfl rfl⟩

/-- C7 counterexample: `progress(-5)` persists `-5`, a value below 0 — the
setter computes `Math.min(num, 100)`, which caps only from above. -/
theorem progress_negative_persisted_cex :
    (Task.progress sampleTask (-5) none).task.metadata.progress = some (-5) ∧
    ((-5 : ℚ) < 0) := by decide

/-- C7 amended: the stored progress is capped above at 100 (as the
percentage of `total` when one is given), but it is NOT clamped below at
0 — a value below 100 is persisted exactly as computed, so negative inputs
persist negative progress.  A zero `total` is excluded: there JS computes
`NaN`/`±Infinity`, which the rational model cannot represent. -/
theorem progress_setter_capped_above_only (t : Task) (num : ℚ) (den : Option ℚ)
    (hden : ∀ d, den = some d → d ≠ 0) :
    (∃ q, (Task.progress t num den).task.metadata.progress = some q ∧ q ≤ 100) ∧
    (den = none → num < 100 →
      (Task.progress t num den).task.metadata.progress = some num) := by
  constructor
  · unfold Task.progress
    cases den with
    | none =>
      by_cases h : min num 100 = 100
      · simp only [h, if_true]
        exact ⟨100, by simp [Task.finalize], le_refl _⟩
      · simp only [h, if_false]
        exact ⟨min num 100, rfl, min_le_right _ _⟩
    | some d =>
      by_cases h : min (100 * num / d) 100 = 100
      · simp only [h, if_true]
        exact ⟨100, by simp [Task.finalize], le_refl _⟩
      · simp only [h, if_false]
        exact ⟨min (100 * num / d) 100, rfl, min_le_right _ _⟩
  · rintro rfl hnum
    have hmin : min num 100 = num := min_eq_left (le_of_lt hnum)
    have hne : ¬ (min num 100 = 100) := by
      rw [hmin]
      exact ne_of_lt hnum
    simp [Task.progress, hmin, hne, ne_of_lt hnum]

/-- Witness for C7's amended theorem at `progress(-5)` on a fresh task. -/
theorem progress_setter_capped_above_only_witness :
    (∀ d : ℚ, (none : Option ℚ) = some d → d ≠ 0) ∧
    ((∃ q, (Task.progress sampleTask (-5) none).task.metadata.progress = some q ∧
        q ≤ 100) ∧
      ((none : Option ℚ) = none → (-5 : ℚ) < 100 →
        (Task.progress sampleTask (-5) none).task.metadata.progress = some (-5))) :=
  ⟨fun _ h => Option.noConfusion h,
    progress_setter_capped_above_only sampleTask (-5) none
      (fun _ h => Option.noConfusion h)⟩

/-- C8 counterexample: constructing a task with a caller-supplied
`broadcasts` option replaces the default `['remove']` list, so `remove` is
no longer in it and `remove()`'s announce does not broadcast (it only
fires local listeners). -/
theorem broadcasts_option_drops_remove_cex :
    ¬ ("remove" ∈ overrideTask.metadata.broadcasts) ∧
    Task.announceIsBroadcast overrideTask "remove" = false ∧
    (Task.removeStep overrideTask).events = ["remove"] := by decide

/-- C8 amended: a task constructed WITHOUT a caller-supplied `broadcasts`
option always has `remove` in `metadata.broadcasts` (procedure defaults
can never displace it), and `remove()`'s announce then broadcasts; but a
caller-supplied `broadcasts` option overwrites the default list and can
drop `remove`. -/
theorem default_broadcasts_contains_remove (pre : String) (pd : Defaults)
    (id ty : String) (du : Option String) (opts : Options) (now : Nat)
    (hb : opts.broadcasts = none) :
    "remove" ∈ (Task.create pre pd id ty du opts now).metadata.broadcasts ∧
    Task.announceIsBroadcast (Task.create pre pd id ty du opts now) "remove" = true := by
  constructor
  · simp [Task.create, hb]
  · simp [Task.announceIsBroadcast, Task.broadcasts, Task.create, hb]

/-- Witness for C8's amended theorem: a fresh construction with empty
options. -/
theorem default_broadcasts_contains_remove_witness :
    (({} : Options).broadcasts = none) ∧
    ("remove" ∈ (Task.create "" {} "id1" "email" none {} 0).metadata.broadcasts ∧
      Task.announceIsBroadcast (Task.create "" {} "id1" "email" none {} 0) "remove"
        = true) :=
  ⟨rfl, default_broadcasts_contains_remove "" {} "id1" "email" none {} 0 rfl⟩

/-- C9: `routeMessage` never propagates an exception to its caller: for
every incoming message, either the defensive body succeeds and its outcome
is returned, or the body throws (e.g. malformed JSON) and the error is
caught and logged with the watch registry left untouched — so the router
keeps processing subsequent messages. -/
theorem routeMessage_never_propagates (parse : String → Option Dispatcher.Envelope)
    (tasks : List (String × Task)) (raw : String) :
    (∃ o, Dispatcher.routeMessageBody parse tasks raw = .ok o ∧
      Dispatcher.routeMessage parse tasks raw = o) ∨
    (∃ e, Dispatcher.routeMessageBody parse tasks raw = .error e ∧
      Dispatcher.routeMessage parse tasks raw =
        { tasks := tasks, emitted := [], scheduled := [],
          log := ["Error " ++ e] }) := by
  cases h : Dispatcher.routeMessageBody parse tasks raw with
  | ok o => exact Or.inl ⟨o, rfl, by simp [Dispatcher.routeMessage, h]⟩
  | error e => exact Or.inr ⟨e, rfl, by simp [Dispatcher.routeMessage, h]⟩

/-- C10: the no-argument `progress()` getter applies `parseFloat` to the
progress method itself rather than to `metadata.progress`, so for every
task it returns `NaN` (`none`) — the stored progress is never observable
through it. -/
theorem progress_getter_returns_NaN (t : Task) :
    Task.progressGet t = none := by
  unfold Taskco.Task.progressGet
  decide

end ClaimTheorems
